import Mathlib

/-!
Shallow embedding of the AI meeting assistant's core logic
(`src/question_detector.py` and `src/model_router.py`).

Python strings are modelled as `List Char`; the Python floats appearing in
the detector only ever hold sums drawn from 0.6/0.3/0.2 capped at 1.0, all
of whose additions and comparisons against the 0.5 threshold are exact in
IEEE doubles (in particular `0.3 + 0.2 == 0.5` holds exactly), so
confidences are modelled as `ℚ`.  A Python function that can raise is
modelled as returning `Option`.
-/

/-- A Python `str`, modelled as its sequence of characters. -/
abbrev Str := List Char

/-- `str.lower()` (ASCII case mapping suffices for every string the
claims touch). -/
def lowerL (l : Str) : Str := l.map Char.toLower

/-- `str.strip()`: drop leading and trailing whitespace. -/
def pyStrip (l : Str) : Str :=
  (l.dropWhile Char.isWhitespace).rdropWhile Char.isWhitespace

/-- `str.split()` with no argument: split on runs of whitespace,
discarding empty tokens. -/
def pyWords (l : Str) : List Str :=
  (l.splitOnP Char.isWhitespace).filter (fun w => w ≠ [])

/-- `str.rstrip('?,:;')`: drop trailing characters drawn from `?,:;`. -/
def rstripTail (l : Str) : Str :=
  l.rdropWhile (fun c => c = '?' || c = ',' || c = ':' || c = ';')

/-- `str.endswith('?')`. -/
def endsWithQ (l : Str) : Bool := l.getLast? = some '?'

/-- Does `n` occur as a prefix of `h`?  (Helper for Python's `in`.) -/
def isSubAt : Str → Str → Bool
  | [], _ => true
  | _ :: _, [] => false
  | a :: as, b :: bs => a = b && isSubAt as bs

/-- Python's substring test `n in h`. -/
def containsSub (n : Str) : Str → Bool
  | [] => n.isEmpty
  | b :: bs => isSubAt n (b :: bs) || containsSub n bs

/-- `' '.join(ws)`. -/
def joinSp : List Str → Str
  | [] => []
  | [w] => w
  | w :: ws => w ++ ' ' :: joinSp ws

/-- The closed set `QuestionDetector.question_words`
(src/question_detector.py lines 9-13). -/
def questionWords : List Str :=
  ["what".toList, "when".toList, "where".toList, "who".toList,
   "whom".toList, "whose".toList, "which".toList, "why".toList,
   "how".toList, "can".toList, "could".toList, "would".toList,
   "should".toList, "will".toList, "is".toList, "are".toList,
   "was".toList, "were".toList, "do".toList, "does".toList,
   "did".toList]

/-- The `+0.6` term of `is_question`: the stripped text ends with `?`. -/
def bonusEnds (t : Str) : ℚ := if endsWithQ t then 3/5 else 0

/-- The `+0.3` term of `is_question`: the first token, lower-cased with
trailing `?,:;` stripped, is a question word. -/
def bonusFirstWord (w : Str) : ℚ :=
  if rstripTail (lowerL w) ∈ questionWords then 3/10 else 0

/-- The `+0.2` term of `is_question`: some question word occurs (as a
substring, via Python's `in`) in the space-join of the first three
tokens, lower-cased. -/
def bonusFirstThree (ws : List Str) : ℚ :=
  if questionWords.any (fun qw => containsSub qw (lowerL (joinSp ws)))
  then 1/5 else 0

/-- `QuestionDetector.is_question` (src/question_detector.py lines
15-38).  `none` models the `IndexError` raised by `text.split()[0]`
when the stripped text has no tokens (the `if not text` guard only
catches the empty string, not whitespace-only input). -/
def is_question (text : Str) : Option (Bool × ℚ) :=
  if text = [] then some (false, 0)
  else
    match pyWords (pyStrip text) with
    | [] => none
    | w :: _ =>
      let conf := bonusEnds (pyStrip text) + bonusFirstWord w
        + bonusFirstThree ((pyWords (pyStrip text)).take 3)
      some (decide (1/2 ≤ conf), min conf 1)

/-! ### Evaluation lemmas for the scoring terms -/

theorem bonusEnds_pos (t : Str) (h : endsWithQ t = true) :
    bonusEnds t = 3/5 := by simp [bonusEnds, h]

theorem bonusEnds_zero (t : Str) (h : endsWithQ t = false) :
    bonusEnds t = 0 := by simp [bonusEnds, h]

theorem bonusFirstWord_pos (w : Str)
    (h : rstripTail (lowerL w) ∈ questionWords) :
    bonusFirstWord w = 3/10 := if_pos h

theorem bonusFirstWord_zero (w : Str)
    (h : rstripTail (lowerL w) ∉ questionWords) :
    bonusFirstWord w = 0 := if_neg h

theorem bonusFirstThree_pos (ws : List Str)
    (h : questionWords.any
      (fun qw => containsSub qw (lowerL (joinSp ws))) = true) :
    bonusFirstThree ws = 1/5 := by simp [bonusFirstThree, h]

theorem bonusFirstThree_zero (ws : List Str)
    (h : questionWords.any
      (fun qw => containsSub qw (lowerL (joinSp ws))) = false) :
    bonusFirstThree ws = 0 := by simp [bonusFirstThree, h]

/-- One-step evaluation of `is_question` once the token list is known. -/
theorem is_question_eval (text w : Str) (ws : List Str)
    (h0 : ¬ text = [])
    (hw : pyWords (pyStrip text) = w :: ws) :
    is_question text =
      some (decide (1/2 ≤ bonusEnds (pyStrip text) + bonusFirstWord w
              + bonusFirstThree ((w :: ws).take 3)),
            min (bonusEnds (pyStrip text) + bonusFirstWord w
              + bonusFirstThree ((w :: ws).take 3)) 1) := by
  rw [is_question, if_neg h0]
  simp only [hw]


/-! ### Facts about the string primitives -/

theorem rdropWhile_eq_append (p : Char → Bool) (l : Str) :
    ∃ t, l.rdropWhile p ++ t = l :=
  List.rdropWhile_prefix p l

theorem rstripTail_eq_append (l : Str) : ∃ t, rstripTail l ++ t = l :=
  rdropWhile_eq_append _ l

theorem dropWhile_cons_not (p : Char → Bool) (l : Str) (c : Char)
    (cs : Str) (h : l.dropWhile p = c :: cs) : p c = false := by
  induction l with
  | nil => simp at h
  | cons a as ih =>
    rw [List.dropWhile_cons] at h
    by_cases hp : p a = true
    · rw [if_pos hp] at h; exact ih h
    · rw [if_neg hp] at h
      injection h with h1 h2
      subst h1
      exact Bool.eq_false_iff.mpr hp

theorem pyStrip_cons_not_ws (l : Str) (c : Char) (cs : Str)
    (h : pyStrip l = c :: cs) : c.isWhitespace = false := by
  obtain ⟨t, ht⟩ :=
    rdropWhile_eq_append Char.isWhitespace (l.dropWhile Char.isWhitespace)
  have hd : l.dropWhile Char.isWhitespace = c :: (cs ++ t) := by
    rw [← ht]
    show (pyStrip l) ++ t = _
    rw [h]; rfl
  exact dropWhile_cons_not Char.isWhitespace l c (cs ++ t) hd

theorem pyStrip_idem (l : Str) : pyStrip (pyStrip l) = pyStrip l := by
  rcases h : pyStrip l with _ | ⟨c, cs⟩
  · rfl
  · have hc := pyStrip_cons_not_ws l c cs h
    rw [pyStrip, List.dropWhile_cons, if_neg (by simp [hc]), ← h]
    show (((l.dropWhile Char.isWhitespace).rdropWhile
      Char.isWhitespace).rdropWhile Char.isWhitespace) = pyStrip l
    rw [List.rdropWhile_idempotent]
    rfl

theorem pyStrip_subset (l : Str) : ∀ x ∈ pyStrip l, x ∈ l := by
  intro x hx
  obtain ⟨t, ht⟩ :=
    rdropWhile_eq_append Char.isWhitespace (l.dropWhile Char.isWhitespace)
  have hx2 : x ∈ l.dropWhile Char.isWhitespace := by
    rw [← ht]; exact List.mem_append_left _ hx
  exact (List.dropWhile_sublist Char.isWhitespace).subset hx2

theorem pyWords_cons (c : Char) (cs : Str) (h : c.isWhitespace = false) :
    ∃ w ws, pyWords (c :: cs) = (c :: w) :: ws := by
  rw [pyWords, List.splitOnP_cons, if_neg (by simp [h])]
  rcases hsp : cs.splitOnP Char.isWhitespace with _ | ⟨hd, tl⟩
  · exact absurd hsp (List.splitOnP_ne_nil Char.isWhitespace cs)
  · refine ⟨hd, tl.filter (fun w => w ≠ []), ?_⟩
    rw [List.modifyHead_cons, List.filter_cons_of_pos (by simp)]

theorem pyWords_of_stripped (s : Str) (h : pyStrip s ≠ []) :
    ∃ w ws, pyWords (pyStrip s) = w :: ws := by
  rcases hcs : pyStrip s with _ | ⟨c, cs⟩
  · exact absurd hcs h
  · obtain ⟨w, ws, hw⟩ := pyWords_cons c cs (pyStrip_cons_not_ws s c cs hcs)
    exact ⟨c :: w, ws, hw⟩

theorem isSubAt_iff (n h : Str) :
    isSubAt n h = true ↔ ∃ post, h = n ++ post := by
  induction n generalizing h with
  | nil => simp [isSubAt]
  | cons a as ih =>
    cases h with
    | nil => simp [isSubAt]
    | cons b bs =>
      simp only [isSubAt, Bool.and_eq_true, decide_eq_true_eq, ih,
        List.cons_append, List.cons.injEq]
      constructor
      · rintro ⟨rfl, post, rfl⟩; exact ⟨post, rfl, rfl⟩
      · rintro ⟨post, rfl, rfl⟩; exact ⟨rfl, post, rfl⟩

theorem containsSub_iff (n h : Str) :
    containsSub n h = true ↔ ∃ pre post, h = pre ++ n ++ post := by
  induction h with
  | nil =>
    cases n with
    | nil => simp [containsSub]
    | cons a as => simp [containsSub, List.isEmpty]
  | cons b bs ih =>
    simp only [containsSub, Bool.or_eq_true, isSubAt_iff, ih]
    constructor
    · rintro (⟨post, hp⟩ | ⟨pre, post, hp⟩)
      · exact ⟨[], post, by simpa using hp⟩
      · exact ⟨b :: pre, post, by simp [hp]⟩
    · rintro ⟨pre, post, hp⟩
      cases pre with
      | nil => exact Or.inl ⟨post, by simpa using hp⟩
      | cons x xs =>
        right
        rw [List.cons_append, List.cons_append] at hp
        injection hp with h1 h2
        subst h1
        exact ⟨xs, post, h2⟩

theorem joinSp_cons (w : Str) (ws : List Str) :
    ∃ r, joinSp (w :: ws) = w ++ r := by
  cases ws with
  | nil => exact ⟨[], by simp [joinSp]⟩
  | cons x xs => exact ⟨' ' :: joinSp (x :: xs), rfl⟩

/-- If the first-word +0.3 rule fires then the first-three-tokens +0.2
rule fires as well: the stripped lower-cased first token is a question
word and a prefix of the space-join of the tokens. -/
theorem bonusFirstThree_of_firstWord (w : Str) (ws : List Str)
    (h : bonusFirstWord w = 3/10) : bonusFirstThree (w :: ws) = 1/5 := by
  have hmem : rstripTail (lowerL w) ∈ questionWords := by
    by_contra hn
    rw [bonusFirstWord_zero w hn] at h
    norm_num at h
  apply bonusFirstThree_pos
  rw [List.any_eq_true]
  refine ⟨rstripTail (lowerL w), hmem, ?_⟩
  rw [containsSub_iff]
  obtain ⟨r, hr⟩ := joinSp_cons w ws
  obtain ⟨t, ht⟩ := rstripTail_eq_append (lowerL w)
  refine ⟨[], t ++ lowerL r, ?_⟩
  calc lowerL (joinSp (w :: ws)) = lowerL (w ++ r) := by rw [hr]
    _ = lowerL w ++ lowerL r := by simp [lowerL]
    _ = (rstripTail (lowerL w) ++ t) ++ lowerL r := by rw [ht]
    _ = [] ++ rstripTail (lowerL w) ++ (t ++ lowerL r) := by
        simp [List.append_assoc]


/-! ### Sentence splitting (`re.split(r'[.!?]+', text)`) -/

/-- A sentence-terminal character of the detector's regular expression
`[.!?]+`. -/
def isPunct (c : Char) : Bool := c = '.' || c = '!' || c = '?'

/-- `re.split(r'[.!?]+', text)`: split on maximal runs of `.`, `!`, `?`.
Interior runs produce no empty segments; a leading or trailing run
produces one empty segment at that end, exactly as `re.split` does. -/
def reSplitPunct : Str → List Str
  | [] => [[]]
  | [c] => if isPunct c then [[], []] else [[c]]
  | c :: d :: rest =>
    if isPunct c then
      if isPunct d then reSplitPunct (d :: rest)
      else [] :: reSplitPunct (d :: rest)
    else
      match reSplitPunct (d :: rest) with
      | [] => [[c]]
      | seg :: segs => (c :: seg) :: segs

theorem reSplitPunct_sample :
    reSplitPunct "Hi there. How are you? Great!".toList =
      ["Hi there".toList, " How are you".toList, " Great".toList, []] := by
  decide

/-- The splitter always returns at least one segment. -/
theorem reSplitPunct_ne_nil (l : Str) : reSplitPunct l ≠ [] := by
  induction l using reSplitPunct.induct with
  | case1 => simp [reSplitPunct]
  | case2 c0 hp => simp [reSplitPunct, if_pos hp]
  | case3 c0 hp => simp [reSplitPunct, if_neg hp]
  | case4 c0 d rest hpc hpd ih =>
    rw [reSplitPunct, if_pos hpc, if_pos hpd]
    exact ih
  | case5 c0 d rest hpc hpd ih =>
    simp [reSplitPunct, if_pos hpc, if_neg hpd]
  | case6 c0 d rest hpc hmatch ih =>
    rw [reSplitPunct, if_neg hpc]
    simp only [hmatch]
    simp
  | case7 c0 d rest hpc seg segs hmatch ih =>
    rw [reSplitPunct, if_neg hpc]
    simp only [hmatch]
    simp

/-- No segment produced by the splitter contains a sentence-terminal
character; in particular no segment contains `?`. -/
theorem reSplitPunct_no_punct (l : Str) :
    ∀ s ∈ reSplitPunct l, ∀ c ∈ s, isPunct c = false := by
  induction l using reSplitPunct.induct with
  | case1 =>
    intro s hs c hc
    rw [reSplitPunct, List.mem_singleton] at hs
    subst hs
    simp at hc
  | case2 c0 hp =>
    intro s hs c hc
    rw [reSplitPunct, if_pos hp] at hs
    rcases List.mem_cons.mp hs with rfl | hs2
    · simp at hc
    · rw [List.mem_singleton] at hs2
      subst hs2
      simp at hc
  | case3 c0 hp =>
    intro s hs c hc
    rw [reSplitPunct, if_neg hp, List.mem_singleton] at hs
    subst hs
    rw [List.mem_singleton] at hc
    subst hc
    exact Bool.eq_false_iff.mpr hp
  | case4 c0 d rest hpc hpd ih =>
    intro s hs c hc
    rw [reSplitPunct, if_pos hpc, if_pos hpd] at hs
    exact ih s hs c hc
  | case5 c0 d rest hpc hpd ih =>
    intro s hs c hc
    rw [reSplitPunct, if_pos hpc, if_neg hpd] at hs
    rcases List.mem_cons.mp hs with rfl | hs2
    · simp at hc
    · exact ih s hs2 c hc
  | case6 c0 d rest hpc hmatch ih =>
    intro s hs c hc
    exact absurd hmatch (reSplitPunct_ne_nil _)
  | case7 c0 d rest hpc seg segs hmatch ih =>
    intro s hs c hc
    rw [reSplitPunct, if_neg hpc] at hs
    simp only [hmatch] at hs
    rcases List.mem_cons.mp hs with rfl | hs2
    · rcases List.mem_cons.mp hc with rfl | hc2
      · exact Bool.eq_false_iff.mpr hpc
      · exact ih seg (by rw [hmatch]; exact List.mem_cons_self _ _) c hc2
    · exact ih s (by rw [hmatch]; exact List.mem_cons_of_mem _ hs2) c hc

/-! ### Sentiment (`QuestionDetector.analyze_sentiment`) -/

/-- A `SentimentResult` record (spec §3): the dict returned by
`analyze_sentiment`. -/
structure SentimentResult where
  sentiment : Str
  polarity : ℚ
  subjectivity : ℚ
  confidence : ℚ
deriving DecidableEq

/-- The neutral default returned on any internal failure. -/
def neutralDefault : SentimentResult :=
  { sentiment := "neutral".toList, polarity := 0, subjectivity := 0,
    confidence := 0 }

/-- Modelled from the spec: the external TextBlob sentiment estimator
(`TextBlob(text).sentiment`), a third-party library outside this
repository.  `some (polarity, subjectivity)` models a normal return and
`none` models the library raising; the spec (§4.1) guarantees
polarity ∈ [-1, 1] and subjectivity ∈ [0, 1], which theorems take as a
hypothesis on the estimator. -/
abbrev SentEst := Str → Option (ℚ × ℚ)

/-- `QuestionDetector.analyze_sentiment` (src/question_detector.py
lines 40-66), parameterized by the external estimator. -/
def analyze_sentiment (est : SentEst) (text : Str) : SentimentResult :=
  match est text with
  | none => neutralDefault
  | some (polarity, subjectivity) =>
    { sentiment :=
        if 1/10 < polarity then "positive".toList
        else if polarity < -(1/10) then "negative".toList
        else "neutral".toList
      polarity := polarity
      subjectivity := subjectivity
      confidence := |polarity| }

/-! ### Question extraction (`QuestionDetector.extract_questions`) -/

/-- A `DetectedQuestion` record (spec §3): one dict appended to the
result list of `extract_questions`. -/
structure DetectedQuestion where
  text : Str
  confidence : ℚ
  sentiment : SentimentResult
deriving DecidableEq

/-- The `for sentence in sentences` loop body of `extract_questions`.
`none` propagates a crash of `is_question` (which the loop never
triggers, as proved below). -/
def extractLoop (est : SentEst) : List Str → Option (List DetectedQuestion)
  | [] => some []
  | s :: rest =>
    if (pyStrip s).isEmpty then extractLoop est rest
    else
      match is_question (pyStrip s) with
      | none => none
      | some (isQ, conf) =>
        match extractLoop est rest with
        | none => none
        | some qs =>
          some (if isQ then
            { text := pyStrip s, confidence := conf,
              sentiment := analyze_sentiment est (pyStrip s) } :: qs
          else qs)

/-- `QuestionDetector.extract_questions` (src/question_detector.py
lines 68-85). -/
def extract_questions (est : SentEst) (text : Str) :
    Option (List DetectedQuestion) :=
  extractLoop est (reSplitPunct text)

/-- A sentence-segment qualifies for the output iff its trimmed text is
non-empty and `is_question` scores it at confidence ≥ 0.5 (stated over
the returned, capped confidence; equivalent to the classification flag,
as proved below). -/
def qualifiesB (s : Str) : Bool :=
  !s.isEmpty &&
    (match is_question s with
     | some (_, c) => decide (1/2 ≤ c)
     | none => false)

/-! ### Core lemmas about `is_question` -/

theorem bonusEnds_nonneg (t : Str) : 0 ≤ bonusEnds t := by
  rw [bonusEnds]; split <;> norm_num

theorem bonusFirstWord_nonneg (w : Str) : 0 ≤ bonusFirstWord w := by
  rw [bonusFirstWord]; split <;> norm_num

theorem bonusFirstThree_nonneg (ws : List Str) : 0 ≤ bonusFirstThree ws := by
  rw [bonusFirstThree]; split <;> norm_num

theorem bonusFirstThree_le (ws : List Str) : bonusFirstThree ws ≤ 1/5 := by
  rw [bonusFirstThree]; split <;> norm_num

/-- Whenever `is_question` returns, the confidence is within [0, 1]. -/
theorem is_question_conf_bounds (text : Str) (b : Bool) (c : ℚ)
    (h : is_question text = some (b, c)) : 0 ≤ c ∧ c ≤ 1 := by
  by_cases h0 : text = []
  · subst h0
    rw [is_question, if_pos rfl] at h
    injection h with h1
    injection h1 with h2 h3
    subst h3
    norm_num
  · rcases hw : pyWords (pyStrip text) with _ | ⟨w, ws⟩
    · rw [is_question, if_neg h0] at h
      simp only [hw] at h
      exact absurd h (by simp)
    · rw [is_question_eval text w ws h0 hw] at h
      injection h with h1
      injection h1 with h2 h3
      subst h3
      constructor
      · exact le_min
          (add_nonneg (add_nonneg (bonusEnds_nonneg _)
            (bonusFirstWord_nonneg _)) (bonusFirstThree_nonneg _))
          (by norm_num)
      · exact min_le_right _ _

/-- On a stripped non-empty input, `is_question` returns a value whose
flag agrees with the ≥ 0.5 test on the returned confidence. -/
theorem is_question_stripped (s : Str) (hne : pyStrip s ≠ []) :
    ∃ b c, is_question (pyStrip s) = some (b, c) ∧ (b = true ↔ 1/2 ≤ c) := by
  obtain ⟨w, ws, hw⟩ := pyWords_of_stripped s hne
  have hw2 : pyWords (pyStrip (pyStrip s)) = w :: ws := by
    rw [pyStrip_idem]; exact hw
  have h := is_question_eval (pyStrip s) w ws hne hw2
  rw [pyStrip_idem] at h
  refine ⟨_, _, h, ?_⟩
  constructor
  · intro hb
    rw [decide_eq_true_eq] at hb
    exact le_min hb (by norm_num)
  · intro hc
    rw [decide_eq_true_eq]
    exact le_trans hc (min_le_left _ _)

theorem endsWithQ_false_of_no_qmark (t : Str) (h : ('?' : Char) ∉ t) :
    endsWithQ t = false := by
  rw [endsWithQ, decide_eq_false_iff_not]
  intro hq
  exact h (List.mem_of_mem_getLast? (by rw [Option.mem_def]; exact hq))

/-- On a segment containing no `?`, the only way `is_question` can
classify it as a question is with confidence exactly 0.5: the ends-with
bonus cannot fire, and the +0.3 bonus firing forces the +0.2 bonus. -/
theorem is_question_no_qmark (s : Str) (c : ℚ)
    (hq : ('?' : Char) ∉ s)
    (h : is_question (pyStrip s) = some (true, c)) : c = 1/2 := by
  by_cases h0 : pyStrip s = []
  · rw [h0] at h
    simp [is_question] at h
  · obtain ⟨w, ws, hw⟩ := pyWords_of_stripped s h0
    have hw2 : pyWords (pyStrip (pyStrip s)) = w :: ws := by
      rw [pyStrip_idem]; exact hw
    have heval := is_question_eval (pyStrip s) w ws h0 hw2
    rw [pyStrip_idem] at heval
    rw [heval] at h
    injection h with h1
    injection h1 with h2 h3
    rw [decide_eq_true_eq] at h2
    have hq2 : ('?' : Char) ∉ pyStrip s := fun hm => hq (pyStrip_subset s '?' hm)
    have he : bonusEnds (pyStrip s) = 0 :=
      bonusEnds_zero _ (endsWithQ_false_of_no_qmark _ hq2)
    rw [he, zero_add] at h2 h3
    have htake : (w :: ws).take 3 = w :: ws.take 2 := rfl
    by_cases hbw : rstripTail (lowerL w) ∈ questionWords
    · have hb : bonusFirstWord w = 3/10 := bonusFirstWord_pos w hbw
      have ht : bonusFirstThree ((w :: ws).take 3) = 1/5 := by
        rw [htake]
        exact bonusFirstThree_of_firstWord w (ws.take 2) hb
      rw [hb, ht] at h3
      rw [← h3]
      norm_num [min_def]
    · have hb : bonusFirstWord w = 0 := bonusFirstWord_zero w hbw
      rw [hb, zero_add] at h2
      have := bonusFirstThree_le ((w :: ws).take 3)
      linarith

/-- Full characterisation of one pass of the extraction loop: it never
crashes, its entries are exactly the qualifying stripped segments in
input order, and each entry records the `is_question` verdict for its
own text. -/
theorem extractLoop_spec (est : SentEst) (segs : List Str) :
    ∃ l, extractLoop est segs = some l ∧
      l.map (fun q => q.text) = (segs.map pyStrip).filter qualifiesB ∧
      ∀ q ∈ l, (∃ s ∈ segs, q.text = pyStrip s) ∧
        is_question q.text = some (true, q.confidence) := by
  induction segs with
  | nil => exact ⟨[], rfl, rfl, by simp⟩
  | cons s rest ih =>
    obtain ⟨l, hl, hmap, hq⟩ := ih
    by_cases hs : (pyStrip s).isEmpty
    · refine ⟨l, ?_, ?_, ?_⟩
      · rw [extractLoop, if_pos hs]
        exact hl
      · rw [List.map_cons,
          List.filter_cons_of_neg (by simp [qualifiesB, hs]), hmap]
      · intro q hql
        obtain ⟨⟨s2, hs2, hq2⟩, h3⟩ := hq q hql
        exact ⟨⟨s2, List.mem_cons_of_mem _ hs2, hq2⟩, h3⟩
    · have hne : pyStrip s ≠ [] := by
        intro h
        rw [h] at hs
        exact hs rfl
      obtain ⟨b, c, hiq, hbc⟩ := is_question_stripped s hne
      by_cases hb : b = true
      · subst hb
        have hqual : qualifiesB (pyStrip s) = true := by
          rw [qualifiesB]
          simp only [hiq]
          rw [Bool.and_eq_true]
          refine ⟨?_, decide_eq_true (hbc.mp rfl)⟩
          rw [Bool.not_eq_true] at hs
          simp [hs]
        refine ⟨{ text := pyStrip s, confidence := c,
                  sentiment := analyze_sentiment est (pyStrip s) } :: l,
          ?_, ?_, ?_⟩
        · rw [extractLoop, if_neg hs]
          simp only [hiq, hl, if_true]
        · rw [List.map_cons, List.map_cons,
            List.filter_cons_of_pos hqual, hmap]
        · intro q hql
          rcases List.mem_cons.mp hql with rfl | hql2
          · exact ⟨⟨s, List.mem_cons_self _ _, rfl⟩, hiq⟩
          · obtain ⟨⟨s2, hs2, hq2⟩, h3⟩ := hq q hql2
            exact ⟨⟨s2, List.mem_cons_of_mem _ hs2, hq2⟩, h3⟩
      · have hb2 : b = false := Bool.not_eq_true b |>.mp hb
        subst hb2
        have hqual : ¬ qualifiesB (pyStrip s) = true := by
          rw [qualifiesB]
          simp only [hiq]
          rw [Bool.and_eq_true]
          rintro ⟨-, hdec⟩
          exact hb (hbc.mpr (of_decide_eq_true hdec))
        refine ⟨l, ?_, ?_, ?_⟩
        · rw [extractLoop, if_neg hs]
          simp only [hiq, hl]
          rfl
        · rw [List.map_cons, List.filter_cons_of_neg hqual, hmap]
        · intro q hql
          obtain ⟨⟨s2, hs2, hq2⟩, h3⟩ := hq q hql
          exact ⟨⟨s2, List.mem_cons_of_mem _ hs2, hq2⟩, h3⟩

/-! ### Claim theorems for the question detector -/

/-- Claim C1: for every input text, `extract_questions` returns exactly
one entry per sentence-segment (split on runs of `.`/`!`/`?`) whose
trimmed text is non-empty and which independently scores confidence
≥ 0.5 under the `is_question` rules; segments scoring below 0.5 and
empty segments produce no entry, and entries appear in segment order
(the map/filter equality matches texts position by position). -/
theorem C1_extract_questions_filter (est : SentEst) (t : Str) :
    ∃ l, extract_questions est t = some l ∧
      l.map (fun q => q.text) =
        ((reSplitPunct t).map pyStrip).filter qualifiesB ∧
      ∀ q ∈ l, is_question q.text = some (true, q.confidence) := by
  obtain ⟨l, h1, h2, h3⟩ := extractLoop_spec est (reSplitPunct t)
  exact ⟨l, h1, h2, fun q hql => (h3 q hql).2⟩

/-- Claim C4: every `DetectedQuestion` produced by `extract_questions`
carries confidence exactly 0.5: the splitter strips every `?`, so the
+0.6 rule never fires on a segment, and the only way to reach the 0.5
threshold is +0.3 together with the +0.2 it implies. -/
theorem C4_confidence_half (est : SentEst) (t : Str) :
    ∃ l, extract_questions est t = some l ∧
      ∀ q ∈ l, q.confidence = 1/2 := by
  obtain ⟨l, h1, h2, h3⟩ := extractLoop_spec est (reSplitPunct t)
  refine ⟨l, h1, fun q hql => ?_⟩
  obtain ⟨⟨s, hsmem, hqt⟩, hiq⟩ := h3 q hql
  have hnq : ('?' : Char) ∉ s := by
    intro hm
    exact absurd (reSplitPunct_no_punct t s hsmem '?' hm) (by decide)
  rw [hqt] at hiq
  exact is_question_no_qmark s q.confidence hnq hiq

/-- Claim C9, code-bug evidence: `is_question` on the whitespace-only,
non-empty string `"   "` crashes (modelled as `none`) instead of
returning a value — the `if not text` guard passes it through, then
`text.split()[0]` indexes an empty list (`IndexError`). -/
theorem C9_is_question_whitespace_crash :
    is_question "   ".toList = none := by
  rw [is_question, if_neg (by decide)]
  simp only [show pyWords (pyStrip "   ".toList) = [] from by decide]

/-- Claim C5 counterexample: `is_question("The sky is blue.")` returns
confidence 0.2, not 0.0 — the +0.2 rule fires because the question word
`is` occurs among the first three tokens "the sky is". -/
theorem C5_counterexample :
    is_question "The sky is blue.".toList = some (false, 1/5) ∧
      is_question "The sky is blue.".toList ≠ some (false, 0) := by
  have h : is_question "The sky is blue.".toList = some (false, 1/5) := by
    rw [is_question_eval "The sky is blue.".toList "The".toList
        ["sky".toList, "is".toList, "blue.".toList] (by decide) (by decide),
      bonusEnds_zero _ (by decide), bonusFirstWord_zero _ (by decide),
      bonusFirstThree_pos _ (by decide)]
    norm_num [min_def, decide_eq_false_iff_not]
  refine ⟨h, ?_⟩
  rw [h]
  intro hfalse
  injection hfalse with h1
  injection h1 with h2 h3
  norm_num at h3

/-- Claim C5 amended: `is_question("The sky is blue.")` returns
confidence 0.2 (= 1/5) and classifies the input as not a question. -/
theorem C5_amended_confidence :
    is_question "The sky is blue.".toList = some (false, 1/5) := by
  rw [is_question_eval "The sky is blue.".toList "The".toList
      ["sky".toList, "is".toList, "blue.".toList] (by decide) (by decide),
    bonusEnds_zero _ (by decide), bonusFirstWord_zero _ (by decide),
    bonusFirstThree_pos _ (by decide)]
  norm_num [min_def, decide_eq_false_iff_not]

/-- Claim C3 counterexample: on "Whatever happens next" the +0.2 bonus
fires (and `is_question` scores 0.2) although no question word equals
any of the first three (lower-cased) tokens — `what` is merely a
substring of `whatever`. -/
theorem C3_counterexample :
    bonusFirstThree
        ((pyWords (pyStrip "Whatever happens next".toList)).take 3) = 1/5 ∧
      (∀ qw ∈ questionWords,
        qw ∉ ((pyWords
          (pyStrip "Whatever happens next".toList)).take 3).map lowerL) ∧
      is_question "Whatever happens next".toList = some (false, 1/5) := by
  refine ⟨bonusFirstThree_pos _ (by decide), by decide, ?_⟩
  rw [is_question_eval "Whatever happens next".toList "Whatever".toList
      ["happens".toList, "next".toList] (by decide) (by decide),
    bonusEnds_zero _ (by decide), bonusFirstWord_zero _ (by decide),
    bonusFirstThree_pos _ (by decide)]
  norm_num [min_def, decide_eq_false_iff_not]

/-- Claim C3 amended: the +0.2 bonus fires iff some question word
occurs as a substring (Python's `in`) of the space-join of the
lower-cased first three tokens, not necessarily as a whole token. -/
theorem C3_amended_substring (ws : List Str) :
    bonusFirstThree ws = 1/5 ↔
      ∃ qw ∈ questionWords, ∃ pre post,
        lowerL (joinSp ws) = pre ++ qw ++ post := by
  by_cases hc : questionWords.any
      (fun qw => containsSub qw (lowerL (joinSp ws))) = true
  · rw [List.any_eq_true] at hc
    obtain ⟨qw, hmem, hsub⟩ := hc
    rw [containsSub_iff] at hsub
    obtain ⟨pre, post, hp⟩ := hsub
    exact iff_of_true
      (bonusFirstThree_pos ws (List.any_eq_true.mpr
        ⟨qw, hmem, (containsSub_iff qw _).mpr ⟨pre, post, hp⟩⟩))
      ⟨qw, hmem, pre, post, hp⟩
  · refine iff_of_false ?_ ?_
    · rw [bonusFirstThree_zero ws ((Bool.not_eq_true _).mp hc)]
      norm_num
    · rintro ⟨qw, hmem, pre, post, hp⟩
      exact hc (List.any_eq_true.mpr
        ⟨qw, hmem, (containsSub_iff qw _).mpr ⟨pre, post, hp⟩⟩)

/-! ### Model router (src/model_router.py) -/

/-- The set `ModelRouter.complex_keywords` (src/model_router.py lines
28-32). -/
def complexKeywords : List Str :=
  ["analyze".toList, "compare".toList, "contrast".toList,
   "evaluate".toList, "explain".toList, "strategic".toList,
   "architecture".toList, "design".toList, "implement".toList,
   "calculate".toList, "estimate".toList, "predict".toList,
   "legal".toList, "compliance".toList]

/-- `has_complex` of `classify_question`: some trigger word occurs as a
substring (Python's `in`) of the lower-cased question. -/
def hasComplexB (q : Str) : Bool :=
  complexKeywords.any (fun kw => containsSub kw (lowerL q))

/-- `multi_part` of `classify_question`. -/
def multiPartB (q : Str) : Bool :=
  decide (1 < q.count '?') || containsSub " and ".toList (lowerL q)

/-- `ModelRouter.classify_question` (src/model_router.py lines 34-50). -/
def classify_question (q : Str) : Str :=
  if hasComplexB q || decide (25 < (pyWords q).length) then "complex".toList
  else if multiPartB q || decide (15 < (pyWords q).length) then
    "moderate".toList
  else "simple".toList

/-- The router state fixed at construction (`ModelRouter.__init__`):
the one-shot Claude availability flag, plus the three backend clients
modelled as opaque prompt-to-response functions (`_query_gemini_flash`,
`_query_gemini_pro`, `_query_claude`, each catching its own errors and
returning an error string). -/
structure ModelRouter where
  claude_available : Bool
  queryFlash : Str → Str
  queryPro : Str → Str
  queryClaude : Str → Str

/-- The record returned by `route_and_query`. -/
structure RoutedResponse where
  response : Str
  model_used : Str
  complexity : Str

/-- The prompt f-string of `route_and_query`. -/
def buildPrompt (context question : Str) : Str :=
  "Meeting Context:\n".toList ++ context
    ++ "\n\nQuestion: ".toList ++ question
    ++ "\n\nProvide a clear, concise answer based on the meeting context.".toList

/-- `ModelRouter.route_and_query` (src/model_router.py lines 52-84). -/
def route_and_query (r : ModelRouter) (question context : Str)
    (complexity : Option Str) : RoutedResponse :=
  let comp := match complexity with
    | none => classify_question question
    | some c0 => c0
  let prompt := buildPrompt context question
  if comp = "simple".toList then
    { response := r.queryFlash prompt,
      model_used := "Gemini 2.0 Flash".toList, complexity := comp }
  else if comp = "moderate".toList then
    { response := r.queryPro prompt,
      model_used := "Gemini 1.5 Pro".toList, complexity := comp }
  else if r.claude_available then
    { response := r.queryClaude prompt,
      model_used := "Claude Sonnet 4.5".toList, complexity := comp }
  else
    { response := r.queryPro prompt,
      model_used := "Gemini 1.5 Pro".toList, complexity := comp }

/-! ### Claim theorems for the router -/

/-- Claim C2: with the advanced (Claude) backend marked unavailable at
router construction, `route_and_query(q, ctx, complexity='complex')`
reports `model_used` equal to the balanced-tier model name
"Gemini 1.5 Pro", while the returned record's complexity still reads
"complex". -/
theorem C2_complex_fallback (r : ModelRouter)
    (h : r.claude_available = false) (q ctx : Str) :
    (route_and_query r q ctx (some "complex".toList)).model_used
        = "Gemini 1.5 Pro".toList ∧
      (route_and_query r q ctx (some "complex".toList)).complexity
        = "complex".toList := by
  simp only [route_and_query]
  rw [if_neg (by decide), if_neg (by decide), h]
  exact ⟨rfl, rfl⟩

/-- Claim C2 witness: a concrete router whose Claude flag is down. -/
theorem C2_complex_fallback_witness :
    (route_and_query ⟨false, id, id, id⟩ "q".toList []
        (some "complex".toList)).model_used = "Gemini 1.5 Pro".toList ∧
      (route_and_query ⟨false, id, id, id⟩ "q".toList []
        (some "complex".toList)).complexity = "complex".toList :=
  C2_complex_fallback ⟨false, id, id, id⟩ rfl "q".toList []

/-- Claim C6 counterexample: `classify_question("How do we architect
this?")` does not return "complex" — the trigger set contains only
"architecture", which does not occur as a substring of the question. -/
theorem C6_counterexample :
    classify_question "How do we architect this?".toList
      ≠ "complex".toList := by decide

/-- Claim C6 amended: `classify_question("How do we architect this?")`
returns "simple" (no trigger substring, one `?`, no " and ", and only
five tokens). -/
theorem C6_amended_simple :
    classify_question "How do we architect this?".toList
      = "simple".toList := by decide

/-- The spec's `complex` rule (§4.3): a trigger word occurs as a
substring of the lower-cased question, or more than 25 tokens. -/
def ComplexQ (q : Str) : Prop :=
  (∃ kw ∈ complexKeywords, ∃ pre post, lowerL q = pre ++ kw ++ post) ∨
    25 < (pyWords q).length

/-- The spec's `moderate` rule (§4.3): more than one `?`, or the
substring " and " in the lower-cased question, or more than 15
tokens. -/
def ModerateQ (q : Str) : Prop :=
  1 < q.count '?' ∨
    (∃ pre post, lowerL q = pre ++ " and ".toList ++ post) ∨
    15 < (pyWords q).length

theorem complex_cond_iff (q : Str) :
    (hasComplexB q || decide (25 < (pyWords q).length)) = true ↔
      ComplexQ q := by
  rw [Bool.or_eq_true, hasComplexB, List.any_eq_true, ComplexQ]
  constructor
  · rintro (⟨kw, hmem, hsub⟩ | hlen)
    · exact Or.inl ⟨kw, hmem, (containsSub_iff kw _).mp hsub⟩
    · exact Or.inr (of_decide_eq_true hlen)
  · rintro (⟨kw, hmem, pre, post, hp⟩ | hlen)
    · exact Or.inl ⟨kw, hmem, (containsSub_iff kw _).mpr ⟨pre, post, hp⟩⟩
    · exact Or.inr (decide_eq_true hlen)

theorem moderate_cond_iff (q : Str) :
    (multiPartB q || decide (15 < (pyWords q).length)) = true ↔
      ModerateQ q := by
  rw [Bool.or_eq_true, multiPartB, Bool.or_eq_true, ModerateQ]
  constructor
  · rintro ((hc | hand) | hlen)
    · exact Or.inl (of_decide_eq_true hc)
    · exact Or.inr (Or.inl ((containsSub_iff _ _).mp hand))
    · exact Or.inr (Or.inr (of_decide_eq_true hlen))
  · rintro (hc | hand | hlen)
    · exact Or.inl (Or.inl (decide_eq_true hc))
    · exact Or.inl (Or.inr ((containsSub_iff _ _).mpr hand))
    · exact Or.inr (decide_eq_true hlen)

/-- Claim C7: `classify_question` returns "complex" exactly on the
complex rule, "moderate" exactly on the moderate rule when the complex
rule fails (the complex test short-circuits), and "simple" otherwise. -/
theorem C7_classify_characterisation (q : Str) :
    (classify_question q = "complex".toList ↔ ComplexQ q) ∧
      (classify_question q = "moderate".toList ↔
        ¬ComplexQ q ∧ ModerateQ q) ∧
      (classify_question q = "simple".toList ↔
        ¬ComplexQ q ∧ ¬ModerateQ q) := by
  rw [classify_question]
  by_cases hc : (hasComplexB q || decide (25 < (pyWords q).length)) = true
  · rw [if_pos hc]
    have hcq : ComplexQ q := (complex_cond_iff q).mp hc
    exact ⟨iff_of_true rfl hcq,
      iff_of_false (by decide) (fun h => h.1 hcq),
      iff_of_false (by decide) (fun h => h.1 hcq)⟩
  · rw [if_neg hc]
    have hncq : ¬ ComplexQ q := fun h => hc ((complex_cond_iff q).mpr h)
    by_cases hm : (multiPartB q || decide (15 < (pyWords q).length)) = true
    · rw [if_pos hm]
      exact ⟨iff_of_false (by decide) hncq,
        iff_of_true rfl ⟨hncq, (moderate_cond_iff q).mp hm⟩,
        iff_of_false (by decide)
          (fun h => h.2 ((moderate_cond_iff q).mp hm))⟩
    · rw [if_neg hm]
      exact ⟨iff_of_false (by decide) hncq,
        iff_of_false (by decide)
          (fun h => hm ((moderate_cond_iff q).mpr h.2)),
        iff_of_true rfl
          ⟨hncq, fun h => hm ((moderate_cond_iff q).mpr h)⟩⟩

/-! ### Claim theorems for sentiment analysis -/

/-- Claim C8: any internal failure of `analyze_sentiment` is caught and
replaced by the neutral default, and on the empty string the result is
exactly the neutral default (per the spec, the external estimator on
empty input degrades gracefully: it fails or reports zero sentiment). -/
theorem C8_sentiment_neutral_default (est : SentEst)
    (hempty : est [] = none ∨ est [] = some (0, 0))
    (text : Str) (hfail : est text = none) :
    analyze_sentiment est text = neutralDefault ∧
      analyze_sentiment est [] = neutralDefault := by
  constructor
  · simp only [analyze_sentiment, hfail]
  · rcases hempty with h | h
    · simp only [analyze_sentiment, h]
    · simp only [analyze_sentiment, h, neutralDefault]
      norm_num

/-- Claim C8 witness: the always-failing estimator at `"x"` and `""`. -/
theorem C8_sentiment_neutral_default_witness :
    analyze_sentiment (fun _ => none) ['x'] = neutralDefault ∧
      analyze_sentiment (fun _ => none) [] = neutralDefault :=
  C8_sentiment_neutral_default (fun _ => none) (Or.inl rfl) ['x'] rfl

/-- Claim C10: whenever `is_question` returns, its confidence lies in
[0, 1]; and for any estimator meeting the spec's polarity range,
`analyze_sentiment` returns polarity in [-1, 1] with confidence equal
to |polarity|, hence in [0, 1]. -/
theorem C10_bounds (est : SentEst)
    (hest : ∀ t p u, est t = some (p, u) → -1 ≤ p ∧ p ≤ 1)
    (text : Str) (b : Bool) (c : ℚ)
    (h : is_question text = some (b, c)) :
    (0 ≤ c ∧ c ≤ 1) ∧
      (-1 ≤ (analyze_sentiment est text).polarity ∧
        (analyze_sentiment est text).polarity ≤ 1 ∧
        (analyze_sentiment est text).confidence =
          |(analyze_sentiment est text).polarity| ∧
        0 ≤ (analyze_sentiment est text).confidence ∧
        (analyze_sentiment est text).confidence ≤ 1) := by
  refine ⟨is_question_conf_bounds text b c h, ?_⟩
  rcases hs : est text with _ | ⟨p, u⟩
  · simp only [analyze_sentiment, hs, neutralDefault]
    norm_num
  · have hp := hest text p u hs
    simp only [analyze_sentiment, hs]
    exact ⟨hp.1, hp.2, trivial, abs_nonneg p, abs_le.mpr hp⟩

/-- Claim C10 witness: the always-failing estimator on the empty
string, where `is_question` returns confidence 0. -/
theorem C10_bounds_witness :
    (((0:ℚ) ≤ 0 ∧ (0:ℚ) ≤ 1)) ∧
      (-1 ≤ (analyze_sentiment (fun _ => none) []).polarity ∧
        (analyze_sentiment (fun _ => none) []).polarity ≤ 1 ∧
        (analyze_sentiment (fun _ => none) []).confidence =
          |(analyze_sentiment (fun _ => none) []).polarity| ∧
        0 ≤ (analyze_sentiment (fun _ => none) []).confidence ∧
        (analyze_sentiment (fun _ => none) []).confidence ≤ 1) :=
  C10_bounds (fun _ => none) (fun _ _ _ hh => Option.noConfusion hh)
    [] false 0 rfl
